import Mathlib

/-!
Verification of the GST sales-report normalization core.

This file shallowly embeds the two core functions of the application:

* `extract_month` (the month resolver): given a file name, a decoded tabular
  ledger and a platform, it infers the reporting month via a prioritized
  fallback chain (file-name scan, platform-specific structured columns,
  generic date-column handling).
* `summarizeE` (the schema mapper & aggregator): given a platform and its
  ledger, it resolves the per-platform column triple, computes total sales,
  total tax, and a ranked region breakdown.

The embedding follows the source line by line.  Python exceptions are
modelled with `Except Unit`: an operation that can raise returns `.error ()`
at exactly the points where the source can raise, and the source's
`try`/`except` blocks become explicit matches on that `Except` value.
Pandas cells are modelled by `PCell`: a numeric value, a string value, or a
missing value (`NaN`).  Library calls (pandas `mode`, `sum`, `groupby`,
`to_datetime`, Python `int()`, list indexing, `strptime`) are embedded as
small Lean functions mirroring their documented behaviour on the value
shapes the application feeds them:

* `pymode` returns the least element (in pandas' ascending mode order)
  among the values of maximal multiplicity, and nothing on empty input;
  for candidates of mixed kinds (which pandas returns in arbitrary order)
  a fixed total convention is used.
* `pandasSum` skips missing values and folds the remaining ones with
  Python `+` (numbers add, strings concatenate, mixed raises).
* `pyListGet` is Python list indexing including negative-index wrap-around.
* `parseDateCell` stands in for `pandas.to_datetime(..., errors=coerce)`
  restricted to ISO-like `YYYY-MM-DD` strings; every other cell is
  unparseable (`NaT`).  Its only property used in the theorems is that a
  parsed month lies in `1..12`, which holds for the real parser as well.
* `pyStrptimeBY` is `datetime.strptime(s, percent-b dash percent-Y)`:
  a case-insensitive three-letter month abbreviation, a dash, and a
  four-digit year of a valid (positive) year.
-/

/-- The fixed twelve-entry month-code table of the source. -/
def months : List String :=
  [r"JAN", r"FEB", r"MAR", r"APR", r"MAY", r"JUN",
   r"JUL", r"AUG", r"SEP", r"OCT", r"NOV", r"DEC"]

/-- Default string used with `List.getD` (the defaults are never reached
on the paths the theorems traverse). -/
def noStr : String := (r"")

/-- Substring test on character lists: does the second list contain the
first as a contiguous run?  Embeds Python's `in` operator on strings. -/
def hasSub (needle : List Char) : List Char → Bool
  | [] => needle.isEmpty
  | c :: t => needle.isPrefixOf (c :: t) || hasSub needle t

/-- Python `needle in hay` for strings. -/
def strContains (hay needle : String) : Bool :=
  hasSub needle.data hay.data

/-- ASCII uppercase of one character (Python `str.upper()` restricted to
ASCII, which covers the month codes the scan searches for). -/
def charUpper (c : Char) : Char :=
  if 97 ≤ c.toNat ∧ c.toNat ≤ 122 then Char.ofNat (c.toNat - 32) else c

/-- ASCII lowercase of one character. -/
def charLower (c : Char) : Char :=
  if 65 ≤ c.toNat ∧ c.toNat ≤ 90 then Char.ofNat (c.toNat + 32) else c

/-- Python `str.upper()` (ASCII range; the month codes are ASCII). -/
def pyUpper (s : String) : String := String.mk (s.data.map charUpper)

/-- Is this an ASCII whitespace character (what `int()` strips)? -/
def isSpaceB (c : Char) : Bool := decide (c.toNat = 32 ∨ (9 ≤ c.toNat ∧ c.toNat ≤ 13))

/-- Strip leading and trailing whitespace from a character list. -/
def trimChars (cs : List Char) : List Char :=
  ((cs.dropWhile isSpaceB).reverse.dropWhile isSpaceB).reverse

/-- The closed platform enumeration. -/
inductive Platform where
  | amazon
  | flipkart
  | meesho
deriving DecidableEq

/-- A decoded tabular cell: a number, a string, or a missing value (NaN). -/
inductive PCell where
  | num (q : Int)
  | str (s : String)
  | nan
deriving DecidableEq

/-- Is this cell a missing value? -/
def PCell.isNan : PCell → Bool
  | .nan => true
  | _ => false

/-- A decoded ledger: named columns of cells (rows are read off by
position, as in a data frame all columns have the row count's length). -/
abbrev Ledger : Type := List (String × List PCell)

deriving instance DecidableEq for Except

/-- Column lookup; an absent column reads as empty (only used guarded by
`hasCol`, matching the source's `in df.columns` checks). -/
def getCol (l : Ledger) (n : String) : List PCell :=
  match l.find? (fun c => decide (c.1 = n)) with
  | some c => c.2
  | none => []

/-- Embeds Python's `name in df.columns`. -/
def hasCol (l : Ledger) (n : String) : Bool :=
  (l.find? (fun c => decide (c.1 = n))).isSome

/-- Lexicographic order on strings by code point (Python string order). -/
def charsLe : List Char → List Char → Bool
  | [], _ => true
  | _ :: _, [] => false
  | a :: as, b :: bs => if a = b then charsLe as bs else decide (a < b)

/-- Boolean string order used for pandas' ascending mode order. -/
def strLeB (a b : String) : Bool := charsLe a.data b.data

/-- Boolean order on cells for pandas' sorted mode output.  Within one
kind it is the value order; across kinds (where pandas' order on mode
candidates is arbitrary) a fixed convention is taken. -/
def pcellLeB : PCell → PCell → Bool
  | .num a, .num b => decide (a ≤ b)
  | .str a, .str b => strLeB a b
  | .num _, .str _ => true
  | .str _, .num _ => false
  | .nan, _ => true
  | .str _, .nan => false
  | .num _, .nan => false

/-- Boolean order on naturals. -/
def natLeB (a b : Nat) : Bool := decide (a ≤ b)

/-- The maximal multiplicity of any element of the list. -/
def maxCount [DecidableEq α] (l : List α) : Nat :=
  (l.map fun x => l.count x).foldl Nat.max 0

/-- The elements of maximal multiplicity (the pandas mode candidates). -/
def modeCands [DecidableEq α] (l : List α) : List α :=
  l.dedup.filter fun x => l.count x = maxCount l

/-- The least element under `le` among `a :: xs`. -/
def pickMin (le : α → α → Bool) (a : α) (xs : List α) : α :=
  xs.foldl (fun b x => if le x b && !(le b x) then x else b) a

/-- Embeds `series.mode().iloc[0]`: pandas returns the mode candidates
sorted ascending and `iloc[0]` takes the least; on an empty series there
is no element (the source's `IndexError`, surfaced here as `none`). -/
def pymode [DecidableEq α] (le : α → α → Bool) (l : List α) : Option α :=
  match modeCands l with
  | [] => none
  | c :: cs => some (pickMin le c cs)

/-- Digits to number, most significant first. -/
def digitsToNat (cs : List Char) : Nat :=
  cs.foldl (fun a c => a * 10 + (c.toNat - 48)) 0

/-- Python `int()` on a string: optional surrounding whitespace, optional
sign, then a non-empty run of decimal digits; anything else raises. -/
def parseIntStr (s : String) : Except Unit Int :=
  match trimChars s.data with
  | [] => .error ()
  | c :: rest =>
    let signed : Int × List Char :=
      if c = '-' then (-1, rest) else if c = '+' then (1, rest) else (1, c :: rest)
    if signed.2 ≠ [] ∧ signed.2.all Char.isDigit then
      .ok (signed.1 * (digitsToNat signed.2 : Int))
    else .error ()

/-- Python `int()` on a cell value (on the integral numbers of this
model, `int()` of a number is the number itself). -/
def pyIntCell : PCell → Except Unit Int
  | .num q => .ok q
  | .str s => parseIntStr s
  | .nan => .error ()

/-- Python list indexing `xs[i]` with negative-index wrap-around; an index
out of range raises `IndexError`. -/
def pyListGet (xs : List String) (i : Int) : Except Unit String :=
  if i < 0 then
    if 0 ≤ i + xs.length then .ok (xs.getD (i + xs.length).toNat noStr) else .error ()
  else
    if i < (xs.length : Int) then .ok (xs.getD i.toNat noStr) else .error ()

/-- First element satisfying `p`, with its index counted from `i`
(the source's `enumerate(months, start=1)` loop). -/
def firstHit (p : String → Bool) : Nat → List String → Option (Nat × String)
  | _, [] => none
  | i, x :: xs => if p x then some (i, x) else firstHit p (i + 1) xs

/-- The file-name scan of `extract_month`: the first month code (in
calendar order) occurring in the uppercased file name, with its 1-based
index. -/
def scanMonths (up : String) : Option (Int × String) :=
  match firstHit (fun m => strContains up m) 1 months with
  | some jm => some ((jm.1 : Int), jm.2)
  | none => none

/-- No month code occurs in the uppercased file name. -/
def noMonthCode (fn : String) : Bool :=
  months.all fun m => !(strContains (pyUpper fn) m)

/-- Split a character list at every occurrence of `sep`. -/
def splitOnChar (sep : Char) : List Char → List (List Char)
  | [] => [[]]
  | c :: cs =>
    match splitOnChar sep cs with
    | [] => [[]]
    | g :: gs => if c = sep then [] :: g :: gs else (c :: g) :: gs

/-- Stand-in for `pandas.to_datetime(cell, errors=coerce)` followed by
`.month`, restricted to ISO-like `YYYY-MM-DD` strings; any other cell is
unparseable and becomes `NaT` (`none`).  A parsed month lies in 1..12. -/
def parseDateCell : PCell → Option Nat
  | .str s =>
    match splitOnChar '-' s.data with
    | [y, m, d] =>
      if y.length = 4 ∧ y.all Char.isDigit ∧
         m ≠ [] ∧ m.all Char.isDigit ∧
         d ≠ [] ∧ d.all Char.isDigit ∧
         1 ≤ digitsToNat m ∧ digitsToNat m ≤ 12 ∧
         1 ≤ digitsToNat d ∧ digitsToNat d ≤ 31 then
        some (digitsToNat m)
      else none
    | _ => none
  | _ => none

/-- The generic date-column handling (the body of the source's final
`try`): coerce the column to dates, take the mode of the month numbers
(mode drops the `NaT` entries), and index the month table.  When any entry
failed to parse, the month series has float dtype and `months[float]`
raises `TypeError`; when the mode is empty, `iloc[0]` raises `IndexError`.
Both raises are represented by `.error ()` and are caught by the caller. -/
def dateColTry (cells : List PCell) : Except Unit (Int × String) :=
  match pymode natLeB ((cells.map parseDateCell).filterMap id) with
  | none => .error ()
  | some m =>
    if (cells.map parseDateCell).any (fun o => o.isNone) then .error ()
    else
      match pyListGet months ((m : Int) - 1) with
      | .ok lbl => .ok ((m : Int), lbl)
      | .error e => .error e

/-- Meesho column name `month_number`. -/
def colMonthNumber : String := (r"month_number")

/-- Meesho column name `order_date`. -/
def colOrderDate : String := (r"order_date")

/-- Flipkart column name `Amended Period`. -/
def colAmendedPeriod : String := (r"Amended Period")

/-- `int(df[month_number].dropna().mode().iloc[0])` of the Meesho branch:
mode of the non-missing values, coerced by Python `int()`. -/
def meeshoModeInt (l : Ledger) : Except Unit Int :=
  match pymode pcellLeB ((getCol l colMonthNumber).filter (fun c => !c.isNan)) with
  | none => .error ()
  | some v => pyIntCell v

/-- The body of the Meesho `try` block: the coerced mode indexed into the
month table (Python indexing, so out-of-range raises and negatives wrap). -/
def meeshoMonthTry (l : Ledger) : Except Unit (Int × String) :=
  match meeshoModeInt l with
  | .error e => .error e
  | .ok n =>
    match pyListGet months (n - 1) with
    | .ok lbl => .ok (n, lbl)
    | .error e => .error e

/-- Python `str()` of a cell (`astype(str)`); for numeric cells only the
fact that the result is never a month-abbreviation string matters. -/
def pcellToStr : PCell → String
  | .num q => toString q
  | .str s => s
  | .nan => (r"nan")

/-- `datetime.strptime(s, percent-b dash percent-Y)`: a case-insensitive
three-letter month abbreviation, a literal dash, and exactly four digits
denoting a positive year; the whole string must be consumed.  Returns the
month number in 1..12. -/
def pyStrptimeBY (s : String) : Except Unit Nat :=
  match firstHit (fun ab => decide ((s.data.map charLower).take 3 = ab.data.map charLower)) 1 months with
  | none => .error ()
  | some jm =>
    match (s.data.map charLower).drop 3 with
    | c :: ds =>
      if c = '-' ∧ ds.length = 4 ∧ ds.all Char.isDigit ∧ ds ≠ ['0', '0', '0', '0'] then
        .ok jm.1
      else .error ()
    | [] => .error ()

/-- The body of the Flipkart `try` block: mode of the non-missing
stringified `Amended Period` values, parsed with `strptime`; on success
the month number and `dt.strftime(percent-b).upper()`, which is the month
table entry at the parsed month. -/
def flipTry (l : Ledger) : Except Unit (Int × String) :=
  match pymode strLeB (((getCol l colAmendedPeriod).filter (fun c => !c.isNan)).map pcellToStr) with
  | none => .error ()
  | some s =>
    match pyStrptimeBY s with
    | .ok m => .ok ((m : Int), months.getD (m - 1) noStr)
    | .error e => .error e

/-- Amazon date-column selection: the first existing column among
`Invoice Date`, `Order Date`, `Shipment Date`. -/
def amazonDateCol (l : Ledger) : Option String :=
  if hasCol l (r"Invoice Date") then some (r"Invoice Date")
  else if hasCol l (r"Order Date") then some (r"Order Date")
  else if hasCol l (r"Shipment Date") then some (r"Shipment Date")
  else none

/-- A resolver result: `none` is the fully absent result (Python's
`(None, None)`), `some (n, lbl)` is a resolved month pair. -/
abbrev MonthResult : Type := Option (Int × String)

/-- `extract_month` with Python exceptions made explicit: the result is
`.error` exactly when an uncaught exception would escape the source
function.  Every failure-prone step of the source sits inside a
`try`/`except`, which appears here as a `match` on the step's `Except`
value whose `.error` arm returns the caught-branch value. -/
def extract_monthE (fn : String) (l : Ledger) (p : Platform) : Except Unit MonthResult :=
  match scanMonths (pyUpper fn) with
  | some r => .ok (some r)
  | none =>
    match p with
    | .meesho =>
      if hasCol l colMonthNumber then
        match meeshoMonthTry l with
        | .ok r => .ok (some r)
        | .error _ => .ok none
      else if hasCol l colOrderDate then
        match dateColTry (getCol l colOrderDate) with
        | .ok r => .ok (some r)
        | .error _ => .ok none
      else .ok none
    | .amazon =>
      match amazonDateCol l with
      | some c =>
        match dateColTry (getCol l c) with
        | .ok r => .ok (some r)
        | .error _ => .ok none
      | none => .ok none
    | .flipkart =>
      if hasCol l colAmendedPeriod then
        match flipTry l with
        | .ok r => .ok (some r)
        | .error _ => .ok none
      else .ok none

/-- The month resolver as the caller sees it. -/
def extract_month (fn : String) (l : Ledger) (p : Platform) : MonthResult :=
  match extract_monthE fn l p with
  | .ok r => r
  | .error _ => none

/-- A pandas scalar aggregation result: numeric or string (a sum of an
object column of strings is their concatenation). -/
inductive PVal where
  | num (q : Int)
  | str (s : String)
deriving DecidableEq

/-- Is the value numeric? -/
def PVal.isNum : PVal → Bool
  | .num _ => true
  | .str _ => false

/-- Is the value a string? -/
def PVal.isStr : PVal → Bool
  | .num _ => false
  | .str _ => true

/-- The numeric content of a value (0 on strings; only read under
hypotheses making every value numeric). -/
def pvalInt : PVal → Int
  | .num q => q
  | .str _ => 0

/-- The string content of a value. -/
def pvalStr : PVal → String
  | .num _ => noStr
  | .str s => s

/-- Python `+` on scalars: numbers add, strings concatenate, a mixed pair
raises `TypeError`. -/
def padd : PVal → PVal → Except Unit PVal
  | .num a, .num b => .ok (.num (a + b))
  | .str a, .str b => .ok (.str (a ++ b))
  | .num _, .str _ => .error ()
  | .str _, .num _ => .error ()

/-- The non-missing scalar content of a cell. -/
def cellVal : PCell → Option PVal
  | .num q => some (.num q)
  | .str s => some (.str s)
  | .nan => none

/-- Left reduction of scalars with Python `+`, propagating a raise. -/
def paddFold (acc : PVal) : List PVal → Except Unit PVal
  | [] => .ok acc
  | v :: vs =>
    match padd acc v with
    | .error e => .error e
    | .ok x => paddFold x vs

/-- `series.sum()`: missing values are skipped, the remaining scalars are
reduced in order with Python `+` (an empty reduction is numeric 0).  On a
column mixing numbers and strings the reduction raises, and the source has
no handler around its sums: the `.error` propagates. -/
def pandasSum (cells : List PCell) : Except Unit PVal :=
  match cells.filterMap cellVal with
  | [] => .ok (.num 0)
  | v :: vs => paddFold v vs

/-- The per-platform sales column (`total_col` of the source). -/
def salesColOf : Platform → String
  | .amazon => (r"Invoice Amount")
  | .flipkart => (r"Aggregate Taxable Value Rs.")
  | .meesho => (r"total_invoice_value")

/-- The per-platform tax column (`tax_col` of the source). -/
def taxColOf : Platform → String
  | .amazon => (r"Total Tax Amount")
  | .flipkart => (r"IGST Amount Rs.")
  | .meesho => (r"tax_amount")

/-- The per-platform region column (`state_col` of the source). -/
def regionColOf : Platform → String
  | .amazon => (r"Ship To State")
  | .flipkart => (r"Delivered State (PoS)")
  | .meesho => (r"end_customer_state_new")

/-- The (region, sales) cell pairs that take part in the grouping: rows
whose region is missing are dropped (pandas `groupby` drops NaN keys). -/
def regionPairs (l : Ledger) (rc tc : String) : List (PCell × PCell) :=
  ((getCol l rc).zip (getCol l tc)).filter fun pr => !pr.1.isNan

/-- The group keys in pandas `groupby(sort=True)` order: the distinct
region values, sorted ascending.  (On keys of mixed kinds the fixed
`pcellLeB` convention applies.) -/
def keyLe (a b : PCell) : Prop := pcellLeB a b = true

instance : DecidableRel keyLe := fun a b => instDecidableEqBool (pcellLeB a b) true

def regionKeys (l : Ledger) (rc tc : String) : List PCell :=
  List.insertionSort keyLe ((regionPairs l rc tc).map (fun pr => pr.1)).dedup

/-- The sales cells of one region group. -/
def groupCells (l : Ledger) (rc tc : String) (k : PCell) : List PCell :=
  ((regionPairs l rc tc).filter fun pr => decide (pr.1 = k)).map fun pr => pr.2

/-- The group sums for a list of keys in order; a raise inside any group's
sum propagates. -/
def groupSumsE (l : Ledger) (rc tc : String) : List PCell → Except Unit (List (PCell × PVal))
  | [] => .ok []
  | k :: ks =>
    match pandasSum (groupCells l rc tc k) with
    | .error e => .error e
    | .ok s =>
      match groupSumsE l rc tc ks with
      | .error e => .error e
      | .ok rest => .ok ((k, s) :: rest)

/-- `groupby(state_col)[total_col].sum()`: each group's sales cells summed
with pandas sum semantics, in key order. -/
def groupsE (l : Ledger) (rc tc : String) : Except Unit (List (PCell × PVal)) :=
  groupSumsE l rc tc (regionKeys l rc tc)

/-- Descending comparison on group rows by the numeric summed value. -/
def descNumRel (a b : PCell × PVal) : Prop := pvalInt b.2 ≤ pvalInt a.2

instance : DecidableRel descNumRel := fun _ _ => Int.decLe _ _

instance : IsTotal (PCell × PVal) descNumRel :=
  ⟨fun a b => le_total (pvalInt b.2) (pvalInt a.2)⟩

instance : IsTrans (PCell × PVal) descNumRel :=
  ⟨fun _ _ _ h1 h2 => le_trans h2 h1⟩

/-- Descending comparison on group rows by the string summed value. -/
def descStrRel (a b : PCell × PVal) : Prop := strLeB (pvalStr b.2) (pvalStr a.2) = true

instance : DecidableRel descStrRel := fun _ _ => instDecidableEqBool _ true

/-- `sort_values(ascending=False)` on the group sums: a descending sort
when the values are pairwise comparable (all numeric or all string); on
mixed values the comparison raises `TypeError`. -/
def sortGroups (gs : List (PCell × PVal)) : Except Unit (List (PCell × PVal)) :=
  if gs.all fun g => g.2.isNum then .ok (List.insertionSort descNumRel gs)
  else if gs.all fun g => g.2.isStr then .ok (List.insertionSort descStrRel gs)
  else .error ()

/-- The state-wise breakdown of the source: group, sum, sort descending,
keep the first ten rows (`head(10)`). -/
def regionBreakdownE (l : Ledger) (rc tc : String) : Except Unit (List (PCell × PVal)) :=
  match groupsE l rc tc with
  | .error e => .error e
  | .ok gs =>
    match sortGroups gs with
    | .error e => .error e
    | .ok ss => .ok (ss.take 10)

/-- The per-platform summary assembled by the source's processing loop.
`present = false` records the warning branch (required columns missing),
in which case no aggregation happened and the other fields are blank. -/
structure PlatformSummary where
  present : Bool
  total_sales : PVal
  total_tax : PVal
  region_breakdown : List (PCell × PVal)
deriving DecidableEq

/-- The schema mapper and aggregator: the body of the source's per-platform
loop, with uncaught Python exceptions surfaced as `.error` (the loop has no
handler around its sums, grouping or sorting).  The month label is only
displayed by the source, never computed with, so it is not a parameter. -/
def summarizeE (p : Platform) (l : Ledger) : Except Unit PlatformSummary :=
  if hasCol l (salesColOf p) && hasCol l (taxColOf p) then
    match pandasSum (getCol l (salesColOf p)) with
    | .error e => .error e
    | .ok ts =>
      match pandasSum (getCol l (taxColOf p)) with
      | .error e => .error e
      | .ok tx =>
        if hasCol l (regionColOf p) then
          match regionBreakdownE l (regionColOf p) (salesColOf p) with
          | .error e => .error e
          | .ok rb => .ok ⟨true, ts, tx, rb⟩
        else .ok ⟨true, ts, tx, []⟩
  else .ok ⟨false, .num 0, .num 0, []⟩

/-- Every cell of the list is numeric or missing. -/
def allNumOrNan (cells : List PCell) : Bool :=
  cells.all fun c => (cellVal c).all fun v => v.isNum

/-- The numeric content of a cell, empty on strings and missing values. -/
def cellIntOpt : PCell → Option Int
  | .num q => some q
  | _ => none

/-- The numeric sum of a column: missing values contribute nothing. -/
def intColSum (cells : List PCell) : Int :=
  (cells.filterMap cellIntOpt).foldl (· + ·) 0

/-- The summed sales of one region group, numerically. -/
def groupIntSum (l : Ledger) (rc tc : String) (k : PCell) : Int :=
  intColSum (groupCells l rc tc k)

/-- Modelled from the spec: the summation the specification describes,
in which a non-numeric or missing cell contributes 0.  Used only to
compare the specified aggregation against the source's `pandasSum`. -/
def specSumZero (cells : List PCell) : Int :=
  (cells.map fun c =>
    match c with
    | .num q => q
    | _ => 0).foldl (· + ·) 0

/-- A file name with no month code, for concrete runs. -/
def exFilePlain : String := (r"report.csv")

/-- A file name containing the MAR month code. -/
def exFileMar : String := (r"Sales_MAR_2024.csv")

/-- Meesho ledger whose `month_number` mode is the out-of-range 0. -/
def exMeshZero : Ledger := [(colMonthNumber, [.num 0])]

/-- Meesho ledger with `month_number` mode 5 and a conflicting
January `order_date`. -/
def exMeshFive : Ledger :=
  [(colMonthNumber, [.num 5, .num 5, .num 3]),
   (colOrderDate, [.str (r"2025-01-15")])]

/-- Meesho ledger whose `month_number` mode is not integer-coercible while
a parseable `order_date` column is present. -/
def exMeshBad : Ledger :=
  [(colMonthNumber, [.str (r"abc")]),
   (colOrderDate, [.str (r"2025-03-05")])]

/-- Flipkart ledger whose `Amended Period` mode is Apr-2025. -/
def exFlipApr : Ledger :=
  [(colAmendedPeriod, [.str (r"Apr-2025"), .str (r"Apr-2025"), .str (r"May-2025")])]

/-- Meesho ledger with its sales column but not its tax column. -/
def exSalesOnly : Ledger := [((r"total_invoice_value"), [.num 5])]

/-- Meesho ledger with numeric sales [100, 200, missing] and
tax [10, 20, 30]. -/
def exNumeric : Ledger :=
  [((r"total_invoice_value"), [.num 100, .num 200, .nan]),
   ((r"tax_amount"), [.num 10, .num 20, .num 30])]

/-- Meesho ledger whose sales column holds strings. -/
def exStrSales : Ledger :=
  [((r"total_invoice_value"), [.str (r"abc"), .str (r"dfg")]),
   ((r"tax_amount"), [.num 10, .num 20])]

/-- Meesho ledger with regions A:50, B:200, C:200, D:10. -/
def exRegions : Ledger :=
  [((r"total_invoice_value"), [.num 50, .num 200, .num 200, .num 10]),
   ((r"tax_amount"), [.num 1, .num 2, .num 3, .num 4]),
   ((r"end_customer_state_new"), [.str (r"A"), .str (r"B"), .str (r"C"), .str (r"D")])]

/-- The group rows (key, numeric group sum) in key order; this is what the
grouping produces on numeric sales columns. -/
def groupsList (l : Ledger) (rc tc : String) : List (PCell × PVal) :=
  (regionKeys l rc tc).map fun k => (k, .num (groupIntSum l rc tc k))

/-- The summary of `exNumeric`, used by concrete runs. -/
def exSummary : PlatformSummary := ⟨true, .num 300, .num 60, []⟩

/-- Meesho ledger whose sales column mixes a number and a string. -/
def exMixed : Ledger :=
  [((r"total_invoice_value"), [.num 1, .str (r"a")]),
   ((r"tax_amount"), [.num 2])]

lemma firstHit_some_spec (p : String → Bool) :
    ∀ (ms : List String) (i j : Nat) (x : String), firstHit p i ms = some (j, x) →
      i ≤ j ∧ j < i + ms.length ∧ x ∈ ms ∧ x = ms.getD (j - i) noStr ∧ p x = true ∧
      ∀ k, k < j - i → p (ms.getD k noStr) = false := by
  intro ms
  induction ms with
  | nil => intro i j x h; simp [firstHit] at h
  | cons m ms ih =>
    intro i j x h
    rw [firstHit] at h
    by_cases hp : p m
    · rw [if_pos hp] at h
      have h' : i = j ∧ m = x := by simpa using h
      obtain ⟨rfl, rfl⟩ := h'
      refine ⟨le_refl _, by simp, by simp, by simp, hp, ?_⟩
      intro k hk
      exact absurd hk (by omega)
    · rw [if_neg hp] at h
      have hm : p m = false := by revert hp; cases p m <;> simp
      obtain ⟨h1, h2, hmem, h3, h4, h5⟩ := ih (i + 1) j x h
      refine ⟨by omega, by simp; omega, List.mem_cons_of_mem _ hmem, ?_, h4, ?_⟩
      · have hji : j - i = (j - (i + 1)) + 1 := by omega
        rw [hji, List.getD_cons_succ]
        exact h3
      · intro k hk
        cases k with
        | zero => rw [List.getD_cons_zero]; exact hm
        | succ k' => rw [List.getD_cons_succ]; exact h5 k' (by omega)

lemma firstHit_none_spec (p : String → Bool) :
    ∀ (ms : List String) (i : Nat), firstHit p i ms = none ↔ ∀ x ∈ ms, p x = false := by
  intro ms
  induction ms with
  | nil => intro i; simp [firstHit]
  | cons m ms ih =>
    intro i
    rw [firstHit]
    by_cases hp : p m
    · rw [if_pos hp]
      simp [hp]
    · have hm : p m = false := by revert hp; cases p m <;> simp
      rw [if_neg hp, ih (i + 1)]
      simp [hm]

lemma scanMonths_none_iff (up : String) :
    scanMonths up = none ↔ ∀ m ∈ months, strContains up m = false := by
  unfold scanMonths
  cases hfh : firstHit (fun m => strContains up m) 1 months with
  | none =>
    simpa using (firstHit_none_spec _ _ _).mp hfh
  | some jm =>
    obtain ⟨_, _, hmem, _, hpx, _⟩ := firstHit_some_spec _ _ _ _ _ hfh
    simp only [reduceCtorEq, false_iff]
    intro hall
    rw [hall _ hmem] at hpx
    exact Bool.false_ne_true hpx

lemma noMonthCode_scan (fn : String) (h : noMonthCode fn = true) :
    scanMonths (pyUpper fn) = none := by
  rw [scanMonths_none_iff]
  intro m hm
  unfold noMonthCode at h
  rw [List.all_eq_true] at h
  have := h m hm
  revert this
  cases strContains (pyUpper fn) m <;> simp

lemma pyListGet_months_ok {i : Int} {v : String} (h : pyListGet months i = .ok v) :
    -12 ≤ i ∧ i < 12 ∧ v = months.getD (i % 12).toNat noStr := by
  have hl : months.length = 12 := by rfl
  unfold pyListGet at h
  rw [hl] at h
  by_cases h0 : i < 0
  · rw [if_pos h0] at h
    by_cases h1 : 0 ≤ i + ((12 : Nat) : Int)
    · rw [if_pos h1] at h
      have hv : months.getD (i + ((12 : Nat) : Int)).toNat noStr = v := by injection h
      have ht : (i % 12).toNat = (i + ((12 : Nat) : Int)).toNat := by push_cast at h1 ⊢; omega
      refine ⟨by push_cast at h1; omega, by omega, ?_⟩
      rw [ht]; exact hv.symm
    · rw [if_neg h1] at h; simp at h
  · rw [if_neg h0] at h
    by_cases h1 : i < ((12 : Nat) : Int)
    · rw [if_pos h1] at h
      have hv : months.getD i.toNat noStr = v := by injection h
      have ht : (i % 12).toNat = i.toNat := by push_cast at h1 ⊢; omega
      refine ⟨by omega, by push_cast at h1; omega, ?_⟩
      rw [ht]; exact hv.symm
    · rw [if_neg h1] at h; simp at h

lemma scanMonths_some_spec {up : String} {n : Int} {lbl : String}
    (h : scanMonths up = some (n, lbl)) :
    ∃ j : Nat, 1 ≤ j ∧ j ≤ 12 ∧ n = (j : Int) ∧ lbl = months.getD (j - 1) noStr ∧
      strContains up lbl = true ∧
      ∀ k, k < j - 1 → strContains up (months.getD k noStr) = false := by
  unfold scanMonths at h
  cases hfh : firstHit (fun m => strContains up m) 1 months with
  | none => rw [hfh] at h; simp at h
  | some jm =>
    rw [hfh] at h
    have h' : (jm.1 : Int) = n ∧ jm.2 = lbl := by simpa using h
    obtain ⟨hn, hlbl⟩ := h'
    obtain ⟨h1, h2, _, h3, h4, h5⟩ := firstHit_some_spec _ _ _ _ _ hfh
    refine ⟨jm.1, h1, ?_, hn.symm, ?_, ?_, ?_⟩
    · have : months.length = 12 := by rfl
      omega
    · rw [← hlbl, h3]
    · rw [← hlbl]; exact h4
    · intro k hk; exact h5 k hk

lemma pyStrptimeBY_range {s : String} {m : Nat} (h : pyStrptimeBY s = .ok m) :
    1 ≤ m ∧ m ≤ 12 := by
  unfold pyStrptimeBY at h
  split at h
  · exact absurd h (by simp)
  · rename_i jm hfh
    split at h
    · split at h
      · obtain ⟨h1, h2, _, _, _, _⟩ := firstHit_some_spec _ _ _ _ _ hfh
        have hlen : months.length = 12 := by rfl
        have : jm.1 = m := by injection h
        omega
      · exact absurd h (by simp)
    · exact absurd h (by simp)

lemma meeshoMonthTry_ok {l : Ledger} {n : Int} {lbl : String}
    (h : meeshoMonthTry l = .ok (n, lbl)) :
    pyListGet months (n - 1) = .ok lbl := by
  unfold meeshoMonthTry at h
  split at h
  · exact absurd h (by simp)
  · rename_i n0 hmi
    split at h
    · rename_i lbl0 hpg
      have h' : n0 = n ∧ lbl0 = lbl := by
        have := h
        simp only [Except.ok.injEq, Prod.mk.injEq] at this
        exact this
      obtain ⟨rfl, rfl⟩ := h'
      exact hpg
    · exact absurd h (by simp)

lemma dateColTry_ok {cells : List PCell} {n : Int} {lbl : String}
    (h : dateColTry cells = .ok (n, lbl)) :
    pyListGet months (n - 1) = .ok lbl := by
  unfold dateColTry at h
  split at h
  · exact absurd h (by simp)
  · rename_i m hmo
    split at h
    · exact absurd h (by simp)
    · split at h
      · rename_i lbl0 hpg
        have h' : (m : Int) = n ∧ lbl0 = lbl := by
          have := h
          simp only [Except.ok.injEq, Prod.mk.injEq] at this
          exact this
        obtain ⟨hn, rfl⟩ := h'
        rw [← hn]
        exact hpg
      · exact absurd h (by simp)

lemma flipTry_ok {l : Ledger} {n : Int} {lbl : String}
    (h : flipTry l = .ok (n, lbl)) :
    ∃ m : Nat, 1 ≤ m ∧ m ≤ 12 ∧ n = (m : Int) ∧ lbl = months.getD (m - 1) noStr := by
  unfold flipTry at h
  split at h
  · exact absurd h (by simp)
  · rename_i s hmo
    split at h
    · rename_i m hsp
      have h' : (m : Int) = n ∧ months.getD (m - 1) noStr = lbl := by
        have := h
        simp only [Except.ok.injEq, Prod.mk.injEq] at this
        exact this
      obtain ⟨hn, hlbl⟩ := h'
      obtain ⟨hm1, hm2⟩ := pyStrptimeBY_range hsp
      exact ⟨m, hm1, hm2, hn.symm, hlbl.symm⟩
    · exact absurd h (by simp)

lemma em_scan {fn : String} {l : Ledger} {p : Platform} {r : Int × String}
    (hs : scanMonths (pyUpper fn) = some r) :
    extract_month fn l p = some r := by
  unfold extract_month extract_monthE
  rw [hs]

lemma em_meesho {fn : String} {l : Ledger} (hs : scanMonths (pyUpper fn) = none)
    (hc : hasCol l colMonthNumber = true) :
    extract_month fn l .meesho = (meeshoMonthTry l).toOption := by
  unfold extract_month extract_monthE
  rw [hs]
  dsimp only
  rw [hc]
  cases htry : meeshoMonthTry l <;> simp [htry, Except.toOption]

lemma em_meesho_date {fn : String} {l : Ledger} (hs : scanMonths (pyUpper fn) = none)
    (hc1 : hasCol l colMonthNumber = false) (hc2 : hasCol l colOrderDate = true) :
    extract_month fn l .meesho = (dateColTry (getCol l colOrderDate)).toOption := by
  unfold extract_month extract_monthE
  rw [hs]
  dsimp only
  rw [hc1, hc2]
  cases htry : dateColTry (getCol l colOrderDate) <;> simp [htry, Except.toOption]

lemma em_meesho_none {fn : String} {l : Ledger} (hs : scanMonths (pyUpper fn) = none)
    (hc1 : hasCol l colMonthNumber = false) (hc2 : hasCol l colOrderDate = false) :
    extract_month fn l .meesho = none := by
  unfold extract_month extract_monthE
  rw [hs]
  dsimp only
  rw [hc1, hc2]
  simp

lemma em_amazon {fn : String} {l : Ledger} {c : String} (hs : scanMonths (pyUpper fn) = none)
    (ha : amazonDateCol l = some c) :
    extract_month fn l .amazon = (dateColTry (getCol l c)).toOption := by
  unfold extract_month extract_monthE
  rw [hs]
  dsimp only
  rw [ha]
  cases htry : dateColTry (getCol l c) <;> simp [htry, Except.toOption]

lemma em_amazon_none {fn : String} {l : Ledger} (hs : scanMonths (pyUpper fn) = none)
    (ha : amazonDateCol l = none) :
    extract_month fn l .amazon = none := by
  unfold extract_month extract_monthE
  rw [hs]
  dsimp only
  rw [ha]

lemma em_flip {fn : String} {l : Ledger} (hs : scanMonths (pyUpper fn) = none)
    (hc : hasCol l colAmendedPeriod = true) :
    extract_month fn l .flipkart = (flipTry l).toOption := by
  unfold extract_month extract_monthE
  rw [hs]
  dsimp only
  rw [hc]
  cases htry : flipTry l <;> simp [htry, Except.toOption]

lemma em_flip_absent {fn : String} {l : Ledger} (hs : scanMonths (pyUpper fn) = none)
    (hc : hasCol l colAmendedPeriod = false) :
    extract_month fn l .flipkart = none := by
  unfold extract_month extract_monthE
  rw [hs]
  dsimp only
  rw [hc]
  simp

/-- C3: for every file name that contains at least one of the twelve month
codes (case-insensitively, i.e. as substrings of the uppercased file name)
and for every ledger and platform, the resolver returns the month code that
comes earliest in calendar order among those occurring, paired with its
1-based index, regardless of any column data in the ledger. -/
theorem filename_month_precedence (fn : String) (l : Ledger) (p : Platform)
    (h : (months.any fun m => strContains (pyUpper fn) m) = true) :
    ∃ j : Nat, j < 12 ∧
      extract_month fn l p = some ((j : Int) + 1, months.getD j noStr) ∧
      strContains (pyUpper fn) (months.getD j noStr) = true ∧
      ∀ k, k < j → strContains (pyUpper fn) (months.getD k noStr) = false := by
  cases hs : scanMonths (pyUpper fn) with
  | none =>
    exfalso
    rw [scanMonths_none_iff] at hs
    rw [List.any_eq_true] at h
    obtain ⟨m, hm, hp⟩ := h
    rw [hs m hm] at hp
    exact Bool.false_ne_true hp
  | some r =>
    obtain ⟨n, lbl⟩ := r
    obtain ⟨j, h1, h2, hn, hlbl, hcont, hmin⟩ := scanMonths_some_spec hs
    refine ⟨j - 1, by omega, ?_, ?_, hmin⟩
    · rw [em_scan hs, hn, hlbl]
      have hcast : ((j - 1 : Nat) : Int) + 1 = (j : Int) := by omega
      rw [hcast]
    · rw [← hlbl]; exact hcont

/-- Witness for C3 at the file name Sales_MAR_2024.csv with a Meesho ledger
whose month-number column modally indicates another month. -/
theorem filename_month_precedence_w :
    ∃ j : Nat, j < 12 ∧
      extract_month exFileMar exMeshFive .meesho = some ((j : Int) + 1, months.getD j noStr) ∧
      strContains (pyUpper exFileMar) (months.getD j noStr) = true ∧
      ∀ k, k < j → strContains (pyUpper exFileMar) (months.getD k noStr) = false :=
  filename_month_precedence exFileMar exMeshFive .meesho (by decide)

/-- C4: for a Meesho ledger whose file name has no month code, a
`month_number` column whose non-missing values' mode coerces to 5 yields
the result (5, MAY), regardless of any `order_date` column. -/
theorem meesho_month_number_priority (fn : String) (l : Ledger)
    (hnm : noMonthCode fn = true) (hc : hasCol l colMonthNumber = true)
    (hmode : meeshoModeInt l = .ok 5) :
    extract_month fn l .meesho = some (5, (r"MAY")) := by
  rw [em_meesho (noMonthCode_scan fn hnm) hc]
  have htry : meeshoMonthTry l = .ok (5, (r"MAY")) := by
    unfold meeshoMonthTry
    rw [hmode]
    rfl
  rw [htry]
  rfl

/-- Witness for C4: month-number mode 5 with a conflicting January
order_date column present. -/
theorem meesho_month_number_priority_w :
    extract_month exFilePlain exMeshFive .meesho = some (5, (r"MAY")) ∧
    hasCol exMeshFive colOrderDate = true ∧
    (dateColTry (getCol exMeshFive colOrderDate)).toOption = some (1, (r"JAN")) :=
  ⟨meesho_month_number_priority exFilePlain exMeshFive (by decide) (by decide) (by decide),
   by decide, by decide⟩

/-- C9: for a Meesho ledger whose file name has no month code and whose
`month_number` column is present but has a mode that fails integer
coercion, the resolver returns the fully absent result immediately,
without consulting any `order_date` column. -/
theorem meesho_mode_failure_absent (fn : String) (l : Ledger)
    (hnm : noMonthCode fn = true) (hc : hasCol l colMonthNumber = true)
    (hmode : meeshoModeInt l = .error ()) :
    extract_month fn l .meesho = none := by
  rw [em_meesho (noMonthCode_scan fn hnm) hc]
  have htry : meeshoMonthTry l = .error () := by
    unfold meeshoMonthTry
    rw [hmode]
  rw [htry]
  rfl

/-- Witness for C9: the mode abc fails `int()` while a parseable
order_date column (which alone would give MAR) is present and ignored. -/
theorem meesho_mode_failure_absent_w :
    extract_month exFilePlain exMeshBad .meesho = none ∧
    hasCol exMeshBad colOrderDate = true ∧
    (dateColTry (getCol exMeshBad colOrderDate)).toOption = some (3, (r"MAR")) :=
  ⟨meesho_mode_failure_absent exFilePlain exMeshBad (by decide) (by decide) (by decide),
   by decide, by decide⟩

/-- C8: for every file name, ledger and platform the resolver terminates
with a plain MonthResult: no parse or coercion failure of any fallback
step escapes as an exception (every `.error` of an inner step is caught),
and the fully absent result is the worst case. -/
theorem resolver_never_raises (fn : String) (l : Ledger) (p : Platform) :
    ∃ r : MonthResult, extract_monthE fn l p = .ok r := by
  unfold extract_monthE
  repeat' split
  all_goals exact ⟨_, rfl⟩

/-- Counterexample to C2 as stated: a Meesho ledger whose `month_number`
mode is 0 resolves to the pair (0, DEC) — the month number 0 is outside
1..12 and DEC is the code at index 12, because the source indexes the
month table with Python semantics, where index -1 wraps to the last
entry, instead of coercing into 1..12. -/
theorem month_result_range_cex :
    extract_month exFilePlain exMeshZero .meesho = some (0, (r"DEC")) ∧
    ¬(1 ≤ (0 : Int) ∧ (0 : Int) ≤ 12) := by
  constructor
  · decide
  · decide

/-- C2 as amended: every resolved result carries an integer n with
-11 ≤ n ≤ 12 paired with the month code at the wrapped index
((n - 1) mod 12); both fields are present together or absent together
(built into the result type).  On every path except the Meesho
month-number path n lies in 1..12; on that path the mode is coerced to an
integer but not range-checked, so 0 and negative values down to -11 are
returned with wrapped labels, and any other out-of-range coercion yields
the absent result. -/
theorem month_result_invariant (fn : String) (l : Ledger) (p : Platform)
    (n : Int) (lbl : String)
    (h : extract_month fn l p = some (n, lbl)) :
    -11 ≤ n ∧ n ≤ 12 ∧ lbl = months.getD ((n - 1) % 12).toNat noStr := by
  have hE : extract_monthE fn l p = .ok (some (n, lbl)) := by
    unfold extract_month at h
    cases hE' : extract_monthE fn l p with
    | ok r => rw [hE'] at h; dsimp only at h; rw [h]
    | error e => rw [hE'] at h; dsimp only at h; exact absurd h (by simp)
  unfold extract_monthE at hE
  split at hE
  · rename_i r hs
    have hr : r = (n, lbl) := by simpa using hE
    subst hr
    obtain ⟨j, h1, h2, hn, hlbl, _, _⟩ := scanMonths_some_spec hs
    subst hn
    refine ⟨by omega, by omega, ?_⟩
    rw [hlbl]
    congr 1
    omega
  · rename_i hs
    split at hE
    · -- meesho
      split at hE
      · split at hE
        · rename_i r htry
          have hr : r = (n, lbl) := by simpa using hE
          subst hr
          obtain ⟨hb1, hb2, hv⟩ := pyListGet_months_ok (meeshoMonthTry_ok htry)
          exact ⟨by omega, by omega, hv⟩
        · exact absurd hE (by simp)
      · split at hE
        · split at hE
          · rename_i r htry
            have hr : r = (n, lbl) := by simpa using hE
            subst hr
            obtain ⟨hb1, hb2, hv⟩ := pyListGet_months_ok (dateColTry_ok htry)
            exact ⟨by omega, by omega, hv⟩
          · exact absurd hE (by simp)
        · exact absurd hE (by simp)
    · -- amazon
      split at hE
      · split at hE
        · rename_i r htry
          have hr : r = (n, lbl) := by simpa using hE
          subst hr
          obtain ⟨hb1, hb2, hv⟩ := pyListGet_months_ok (dateColTry_ok htry)
          exact ⟨by omega, by omega, hv⟩
        · exact absurd hE (by simp)
      · exact absurd hE (by simp)
    · -- flipkart
      split at hE
      · split at hE
        · rename_i r htry
          have hr : r = (n, lbl) := by simpa using hE
          subst hr
          obtain ⟨m, hm1, hm2, hn, hlbl⟩ := flipTry_ok htry
          subst hn
          refine ⟨by omega, by omega, ?_⟩
          rw [hlbl]
          congr 1
          omega
        · exact absurd hE (by simp)
      · exact absurd hE (by simp)

/-- Witness for the amended C2 at the wrapped Meesho result (0, DEC). -/
theorem month_result_invariant_w :
    -11 ≤ (0 : Int) ∧ (0 : Int) ≤ 12 ∧
      (r"DEC") = months.getD (((0 : Int) - 1) % 12).toNat noStr :=
  month_result_invariant exFilePlain exMeshZero .meesho 0 (r"DEC") (by decide)

/-- C5: for a Flipkart ledger whose file name has no month code: when the
`Amended Period` column exists and the body of the source's `try`
(mode of the non-missing stringified values parsed as abbreviated month
plus 4-digit year) succeeds, the resolver returns that month number with
its 3-letter code; when that parse fails, or when the column is absent,
the resolver returns the fully absent result, Flipkart having no
configured date column for the generic fallback. -/
theorem flipkart_amended_resolution (fn : String) (l : Ledger)
    (hnm : noMonthCode fn = true) :
    (∀ n lbl, hasCol l colAmendedPeriod = true → flipTry l = .ok (n, lbl) →
      extract_month fn l .flipkart = some (n, lbl) ∧
      ∃ m : Nat, 1 ≤ m ∧ m ≤ 12 ∧ n = (m : Int) ∧ lbl = months.getD (m - 1) noStr) ∧
    (∀ e, hasCol l colAmendedPeriod = true → flipTry l = .error e →
      extract_month fn l .flipkart = none) ∧
    (hasCol l colAmendedPeriod = false → extract_month fn l .flipkart = none) := by
  have hs := noMonthCode_scan fn hnm
  refine ⟨?_, ?_, ?_⟩
  · intro n lbl hc htry
    constructor
    · rw [em_flip hs hc, htry]; rfl
    · exact flipTry_ok htry
  · intro e hc htry
    rw [em_flip hs hc, htry]
    rfl
  · intro hc
    exact em_flip_absent hs hc

/-- Witness for C5: mode Apr-2025 resolves to (4, APR); an absent column
resolves to the absent result. -/
theorem flipkart_amended_resolution_w :
    extract_month exFilePlain exFlipApr .flipkart = some (4, (r"APR")) ∧
    extract_month exFilePlain ([] : Ledger) .flipkart = none := by
  constructor
  · exact ((flipkart_amended_resolution exFilePlain exFlipApr (by decide)).1
      4 (r"APR") (by decide) (by decide)).1
  · exact (flipkart_amended_resolution exFilePlain ([] : Ledger) (by decide)).2.2 (by decide)

lemma paddFold_num (vs : List PVal) (q : Int) (hv : ∀ v ∈ vs, v.isNum = true) :
    paddFold (.num q) vs = .ok (.num (vs.foldl (fun a v => a + pvalInt v) q)) := by
  induction vs generalizing q with
  | nil => rfl
  | cons v vs ih =>
    cases v with
    | str s =>
      have := hv _ (List.mem_cons_self _ _)
      simp [PVal.isNum] at this
    | num b =>
      simp only [paddFold, padd]
      rw [ih (q + b) (fun v hv' => hv v (List.mem_cons_of_mem _ hv'))]
      rfl

lemma filterMap_cellVal_num (cells : List PCell) (h : allNumOrNan cells = true) :
    cells.filterMap cellVal = (cells.filterMap cellIntOpt).map PVal.num := by
  induction cells with
  | nil => rfl
  | cons c cs ih =>
    rw [allNumOrNan, List.all_cons, Bool.and_eq_true] at h
    cases c with
    | num q =>
      simp only [List.filterMap_cons, cellVal, cellIntOpt, List.map_cons]
      rw [ih h.2]
    | str s =>
      exact absurd h.1 (by simp [cellVal, PVal.isNum])
    | nan =>
      simp only [List.filterMap_cons, cellVal, cellIntOpt]
      exact ih h.2

lemma pandasSum_num (cells : List PCell) (h : allNumOrNan cells = true) :
    pandasSum cells = .ok (.num (intColSum cells)) := by
  unfold pandasSum intColSum
  rw [filterMap_cellVal_num cells h]
  cases hfm : cells.filterMap cellIntOpt with
  | nil => rfl
  | cons q qs =>
    dsimp only [List.map]
    rw [paddFold_num]
    · have hfold : (qs.map PVal.num).foldl (fun a v => a + pvalInt v) q =
          qs.foldl (· + ·) q := by
        rw [List.foldl_map]
        rfl
      rw [hfold, List.foldl_cons, zero_add]
    · intro v hv
      rw [List.mem_map] at hv
      obtain ⟨a, _, rfl⟩ := hv
      rfl

lemma mem_groupCells_col {l : Ledger} {rc tc : String} {k c : PCell}
    (h : c ∈ groupCells l rc tc k) : c ∈ getCol l tc := by
  unfold groupCells at h
  rw [List.mem_map] at h
  obtain ⟨pr, hpr, rfl⟩ := h
  rw [List.mem_filter] at hpr
  have hp1 := hpr.1
  unfold regionPairs at hp1
  rw [List.mem_filter] at hp1
  exact (List.of_mem_zip hp1.1).2

lemma allNumOrNan_mono {L1 L2 : List PCell} (hsub : ∀ c ∈ L1, c ∈ L2)
    (h : allNumOrNan L2 = true) : allNumOrNan L1 = true := by
  unfold allNumOrNan at h ⊢
  rw [List.all_eq_true] at h ⊢
  intro c hc
  exact h c (hsub c hc)

lemma groupSumsE_num {l : Ledger} {rc tc : String}
    (h : allNumOrNan (getCol l tc) = true) (ks : List PCell) :
    groupSumsE l rc tc ks = .ok (ks.map fun k => (k, .num (groupIntSum l rc tc k))) := by
  induction ks with
  | nil => rfl
  | cons k ks ih =>
    simp only [groupSumsE]
    rw [pandasSum_num _ (allNumOrNan_mono (fun c hc => mem_groupCells_col hc) h), ih]
    rfl

lemma groupsE_num {l : Ledger} {rc tc : String}
    (h : allNumOrNan (getCol l tc) = true) :
    groupsE l rc tc = .ok (groupsList l rc tc) :=
  groupSumsE_num h _

lemma groupsList_all_num (l : Ledger) (rc tc : String) :
    (groupsList l rc tc).all (fun g => g.2.isNum) = true := by
  rw [List.all_eq_true]
  intro g hg
  unfold groupsList at hg
  rw [List.mem_map] at hg
  obtain ⟨k, _, rfl⟩ := hg
  rfl

lemma regionBreakdownE_num {l : Ledger} {rc tc : String}
    (h : allNumOrNan (getCol l tc) = true) :
    regionBreakdownE l rc tc =
      .ok ((List.insertionSort descNumRel (groupsList l rc tc)).take 10) := by
  unfold regionBreakdownE
  rw [groupsE_num h]
  have hsort : sortGroups (groupsList l rc tc) =
      .ok (List.insertionSort descNumRel (groupsList l rc tc)) := by
    unfold sortGroups
    rw [if_pos (groupsList_all_num l rc tc)]
  dsimp only
  rw [hsort]

lemma summarizeE_ok_num {p : Platform} {l : Ledger}
    (hts : hasCol l (salesColOf p) = true) (htx : hasCol l (taxColOf p) = true)
    (hns : allNumOrNan (getCol l (salesColOf p)) = true)
    (hnx : allNumOrNan (getCol l (taxColOf p)) = true) :
    summarizeE p l = .ok
      ⟨true, .num (intColSum (getCol l (salesColOf p))),
        .num (intColSum (getCol l (taxColOf p))),
        if hasCol l (regionColOf p) then
          (List.insertionSort descNumRel
            (groupsList l (regionColOf p) (salesColOf p))).take 10
        else []⟩ := by
  unfold summarizeE
  rw [hts, htx]
  simp only [Bool.and_self, if_true]
  rw [pandasSum_num _ hns]
  dsimp only
  rw [pandasSum_num _ hnx]
  dsimp only
  cases hasCol l (regionColOf p) with
  | false => simp
  | true =>
    rw [if_pos rfl, if_pos rfl, regionBreakdownE_num hns]

/-- Counterexample to C1 as stated: a Meesho ledger holding its sales
column but not its tax column.  At least one of the two required columns
is present, yet the source takes the warning branch and returns
present = false, because its check demands both columns. -/
theorem present_flag_cex :
    summarizeE .meesho exSalesOnly = .ok ⟨false, .num 0, .num 0, []⟩ ∧
    hasCol exSalesOnly (salesColOf .meesho) = true ∧
    hasCol exSalesOnly (taxColOf .meesho) = false := by
  refine ⟨by decide, by decide, by decide⟩

/-- C1 as amended: the summary carries present = false exactly when at
least one of the platform's sales and tax columns is absent from the
ledger's column set; only when both are present does it aggregate and
return present = true. -/
theorem present_iff_both_columns (p : Platform) (l : Ledger) (s : PlatformSummary)
    (h : summarizeE p l = .ok s) :
    s.present = (hasCol l (salesColOf p) && hasCol l (taxColOf p)) := by
  unfold summarizeE at h
  split at h
  · rename_i hcond
    split at h
    · exact absurd h (by simp)
    · split at h
      · exact absurd h (by simp)
      · split at h
        · split at h
          · exact absurd h (by simp)
          · obtain rfl := Except.ok.inj h
            rw [hcond]
        · obtain rfl := Except.ok.inj h
          rw [hcond]
  · rename_i hcond
    obtain rfl := Except.ok.inj h
    cases hb : (hasCol l (salesColOf p) && hasCol l (taxColOf p)) with
    | true => exact absurd hb hcond
    | false => rfl

/-- Witness for the amended C1 at the sales-only ledger. -/
theorem present_iff_both_columns_w :
    (⟨false, .num 0, .num 0, []⟩ : PlatformSummary).present =
      (hasCol exSalesOnly (salesColOf .meesho) && hasCol exSalesOnly (taxColOf .meesho)) :=
  present_iff_both_columns .meesho exSalesOnly _ (by decide)

/-- Counterexample to C6 as stated: a present sales column holding the
strings abc and dfg.  The specified all-cells-as-0 sum would be the
number 0, but pandas sums an all-string object column by concatenation,
so the source's total is the string abcdfg, not a number at all. -/
theorem totals_nonnumeric_cex :
    summarizeE .meesho exStrSales = .ok ⟨true, .str (r"abcdfg"), .num 30, []⟩ ∧
    PVal.str (r"abcdfg") ≠ .num (specSumZero (getCol exStrSales (salesColOf .meesho))) := by
  refine ⟨by decide, by decide⟩

/-- C6 as amended: for every ledger whose sales and tax columns are
present and hold only numeric or missing cells, the totals are the sums
of the non-missing values (missing contributes 0).  Non-numeric cells are
not coerced to 0: an all-string column sums to a concatenated string and
a mixed column makes the sum raise (see the counterexample). -/
theorem totals_numeric_sum (p : Platform) (l : Ledger)
    (hts : hasCol l (salesColOf p) = true) (htx : hasCol l (taxColOf p) = true)
    (hns : allNumOrNan (getCol l (salesColOf p)) = true)
    (hnx : allNumOrNan (getCol l (taxColOf p)) = true) :
    ∃ s, summarizeE p l = .ok s ∧
      s.total_sales = .num (intColSum (getCol l (salesColOf p))) ∧
      s.total_tax = .num (intColSum (getCol l (taxColOf p))) :=
  ⟨_, summarizeE_ok_num hts htx hns hnx, rfl, rfl⟩

/-- Witness for the amended C6 at the specified instance: sales
[100, 200, missing] and tax [10, 20, 30] give totals 300 and 60. -/
theorem totals_numeric_sum_w :
    ∃ s, summarizeE .meesho exNumeric = .ok s ∧
      s.total_sales = .num 300 ∧ s.total_tax = .num 60 := by
  obtain ⟨s, h1, h2, h3⟩ :=
    totals_numeric_sum .meesho exNumeric (by decide) (by decide) (by decide) (by decide)
  exact ⟨s, h1, h2.trans (by decide), h3.trans (by decide)⟩

/-- C10: summarization is deterministic over an immutable ledger — two
runs of `summarizeE` on the same platform and ledger return summaries
agreeing in the present flag, both totals and the region breakdown. -/
theorem summarize_idempotent (p : Platform) (l : Ledger) (s1 s2 : PlatformSummary)
    (h1 : summarizeE p l = .ok s1) (h2 : summarizeE p l = .ok s2) :
    s1.present = s2.present ∧ s1.total_sales = s2.total_sales ∧
      s1.total_tax = s2.total_tax ∧ s1.region_breakdown = s2.region_breakdown := by
  rw [h1] at h2
  obtain rfl := Except.ok.inj h2
  exact ⟨rfl, rfl, rfl, rfl⟩

/-- Witness for C10 at the numeric example ledger. -/
theorem summarize_idempotent_w :
    exSummary.present = exSummary.present ∧
      exSummary.total_sales = exSummary.total_sales ∧
      exSummary.total_tax = exSummary.total_tax ∧
      exSummary.region_breakdown = exSummary.region_breakdown :=
  summarize_idempotent .meesho exNumeric exSummary exSummary (by decide) (by decide)

lemma regionKeys_nodup (l : Ledger) (rc tc : String) : (regionKeys l rc tc).Nodup := by
  unfold regionKeys
  exact (List.perm_insertionSort keyLe _).symm.nodup (List.nodup_dedup _)

lemma regionKeys_mem {l : Ledger} {rc tc : String} {k : PCell}
    (h : k ∈ regionKeys l rc tc) :
    k.isNan = false ∧ k ∈ getCol l rc := by
  unfold regionKeys at h
  rw [List.mem_insertionSort, List.mem_dedup, List.mem_map] at h
  obtain ⟨pr, hpr, rfl⟩ := h
  unfold regionPairs at hpr
  rw [List.mem_filter] at hpr
  refine ⟨?_, (List.of_mem_zip hpr.1).1⟩
  have h2 := hpr.2
  cases hh : pr.1.isNan
  · rfl
  · rw [hh] at h2
    exact absurd h2 (by simp)

lemma groupsList_map_fst (l : Ledger) (rc tc : String) :
    (groupsList l rc tc).map (fun e => e.1) = regionKeys l rc tc := by
  unfold groupsList
  rw [List.map_map]
  have hcomp : ((fun e : PCell × PVal => e.1) ∘ fun k => (k, PVal.num (groupIntSum l rc tc k))) = id := by
    funext k
    rfl
  rw [hcomp, List.map_id]

/-- C7: for every ledger whose sales and tax columns are present (with the
well-typed numeric-or-missing cells the aggregation presumes): when the
platform's region column is absent the region breakdown is the empty
sequence and the summary is still produced without error; when it is
present the breakdown has at most ten rows, is sorted descending by summed
sales, lists pairwise-distinct non-missing region values occurring in the
region column, pairs each region with the sum of the sales cells of its
rows, and omits only groups whose sums do not exceed any retained row. -/
theorem region_breakdown_props (p : Platform) (l : Ledger)
    (hts : hasCol l (salesColOf p) = true) (htx : hasCol l (taxColOf p) = true)
    (hns : allNumOrNan (getCol l (salesColOf p)) = true)
    (hnx : allNumOrNan (getCol l (taxColOf p)) = true) :
    ∃ s, summarizeE p l = .ok s ∧ s.present = true ∧
      (hasCol l (regionColOf p) = false → s.region_breakdown = []) ∧
      (hasCol l (regionColOf p) = true →
        s.region_breakdown.length ≤ 10 ∧
        List.Sorted descNumRel s.region_breakdown ∧
        (s.region_breakdown.map fun e => e.1).Nodup ∧
        (∀ e ∈ s.region_breakdown,
          e.1.isNan = false ∧ e.1 ∈ getCol l (regionColOf p) ∧
          e.2 = .num (groupIntSum l (regionColOf p) (salesColOf p) e.1)) ∧
        (∀ k ∈ regionKeys l (regionColOf p) (salesColOf p),
          k ∉ (s.region_breakdown.map fun e => e.1) →
          ∀ e ∈ s.region_breakdown,
            groupIntSum l (regionColOf p) (salesColOf p) k ≤ pvalInt e.2)) := by
  refine ⟨_, summarizeE_ok_num hts htx hns hnx, rfl, ?_, ?_⟩
  · intro hrc
    dsimp only
    rw [hrc]
    simp
  · intro hrc
    dsimp only
    rw [hrc, if_pos rfl]
    have hsorted : List.Sorted descNumRel
        (List.insertionSort descNumRel (groupsList l (regionColOf p) (salesColOf p))) :=
      List.sorted_insertionSort descNumRel _
    have hperm : List.Perm
        (List.insertionSort descNumRel (groupsList l (regionColOf p) (salesColOf p)))
        (groupsList l (regionColOf p) (salesColOf p)) :=
      List.perm_insertionSort _ _
    refine ⟨?_, ?_, ?_, ?_, ?_⟩
    · rw [List.length_take]
      omega
    · exact hsorted.sublist (List.take_sublist _ _)
    · rw [List.map_take]
      have h1 : ((List.insertionSort descNumRel
          (groupsList l (regionColOf p) (salesColOf p))).map (fun e => e.1)).Perm
          (regionKeys l (regionColOf p) (salesColOf p)) := by
        rw [← groupsList_map_fst]
        exact hperm.map _
      have h2 : ((List.insertionSort descNumRel
          (groupsList l (regionColOf p) (salesColOf p))).map (fun e => e.1)).Nodup :=
        h1.symm.nodup (regionKeys_nodup _ _ _)
      exact h2.sublist (List.take_sublist _ _)
    · intro e he
      have hez := (List.take_sublist _ _).subset he
      have heg := hperm.subset hez
      unfold groupsList at heg
      rw [List.mem_map] at heg
      obtain ⟨k, hk, rfl⟩ := heg
      obtain ⟨hnan, hmem⟩ := regionKeys_mem hk
      exact ⟨hnan, hmem, rfl⟩
    · intro k hk hknot e he
      have hgkg : (k, PVal.num (groupIntSum l (regionColOf p) (salesColOf p) k)) ∈
          groupsList l (regionColOf p) (salesColOf p) := by
        unfold groupsList
        rw [List.mem_map]
        exact ⟨k, hk, rfl⟩
      have hgkz := hperm.symm.subset hgkg
      have hpw : List.Pairwise descNumRel
          ((List.insertionSort descNumRel
            (groupsList l (regionColOf p) (salesColOf p))).take 10 ++
           (List.insertionSort descNumRel
            (groupsList l (regionColOf p) (salesColOf p))).drop 10) := by
        rw [List.take_append_drop]
        exact hsorted
      have hgkz2 : (k, PVal.num (groupIntSum l (regionColOf p) (salesColOf p) k)) ∈
          (List.insertionSort descNumRel
            (groupsList l (regionColOf p) (salesColOf p))).take 10 ++
          (List.insertionSort descNumRel
            (groupsList l (regionColOf p) (salesColOf p))).drop 10 := by
        rw [List.take_append_drop]
        exact hgkz
      rcases List.mem_append.mp hgkz2 with hin | hdrop
      · exact absurd (List.mem_map.mpr ⟨_, hin, rfl⟩) hknot
      · exact (List.pairwise_append.mp hpw).2.2 e he _ hdrop

/-- Witness for C7 at the ledger with regions A:50, B:200, C:200, D:10:
the breakdown is produced without error, sorted descending, and equals
B, C (the 200-tie in stable grouping order), then A, then D. -/
theorem region_breakdown_props_w :
    ∃ s, summarizeE .meesho exRegions = .ok s ∧ s.present = true ∧
      s.region_breakdown.length ≤ 10 ∧ List.Sorted descNumRel s.region_breakdown ∧
      s.region_breakdown =
        [(.str (r"B"), .num 200), (.str (r"C"), .num 200),
         (.str (r"A"), .num 50), (.str (r"D"), .num 10)] := by
  obtain ⟨s, h1, h2, _, h4⟩ :=
    region_breakdown_props .meesho exRegions (by decide) (by decide) (by decide) (by decide)
  obtain ⟨hl, hs, _, _, _⟩ := h4 (by decide)
  refine ⟨s, h1, h2, hl, hs, ?_⟩
  have hconc : summarizeE .meesho exRegions =
      .ok ⟨true, .num 460, .num 10,
        [(.str (r"B"), .num 200), (.str (r"C"), .num 200),
         (.str (r"A"), .num 50), (.str (r"D"), .num 10)]⟩ := by decide
  rw [h1] at hconc
  obtain rfl := Except.ok.inj hconc
  rfl

/-- Counterexample to C7 as stated: with both required columns present and
the region column absent, the claim promises an empty breakdown and no
error, but on a sales column mixing a number and a string the sum itself
raises (Python `+` of a number and a string), so no summary is produced at
all. -/
theorem region_breakdown_cex :
    summarizeE .meesho exMixed = .error () ∧
    hasCol exMixed (salesColOf .meesho) = true ∧
    hasCol exMixed (taxColOf .meesho) = true ∧
    hasCol exMixed (regionColOf .meesho) = false := by
  refine ⟨by decide, by decide, by decide, by decide⟩
